import Mathlib

/-!
# Bell 103 software modem (`Bell103/Bell103.c`)

A shallow embedding of the two interrupt handlers of `Bell103.c` and of the
state they share, followed by theorems about them.

Conventions of the embedding

* `int16_t` and `int8_t` values are integers (`Int`); every store into such a
  variable is reduced with `wrap16`, respectively `wrap8` (two's complement
  wrap-around, which is what avr-gcc generates).  `int` is 16 bits wide on the
  AVR, and all intermediate results are stored into `int16_t` variables, so
  wrapping at each store is exact.
* `uint8_t` and `uint16_t` values are natural numbers (`Nat`) reduced
  `% 256`, respectively `% 65536`, at each store.
* `>>` on a signed value is the arithmetic shift (`>>>` on `Int`, rounding
  towards minus infinity, see `shiftRight_eq_ediv`), as avr-gcc implements it.
* The I/O registers the handlers touch (`PORTD`, `OCR0A`, `ADCSRA`) are fields
  of the machine state; the registers they read (`ADC`, `PIND`) are
  arguments of the handlers.
* Bit numbers from `<avr/io.h>`: `PORTD1 = 1`, `PORTD2 = 2`, `ADSC = 6`.
-/

namespace Bell103

/-! ## Data model -/

/-- The table `sinTable` (lines 32-49), one byte per entry. -/
def sinTable : List Nat := [
  0x80, 0x83, 0x86, 0x89, 0x8c, 0x8f, 0x92, 0x95, 0x98, 0x9b, 0x9e, 0xa1, 0xa4, 0xa7, 0xaa, 0xad,
  0xb0, 0xb3, 0xb6, 0xb9, 0xbb, 0xbe, 0xc1, 0xc3, 0xc6, 0xc9, 0xcb, 0xce, 0xd0, 0xd2, 0xd5, 0xd7,
  0xd9, 0xdb, 0xde, 0xe0, 0xe2, 0xe4, 0xe6, 0xe7, 0xe9, 0xeb, 0xec, 0xee, 0xf0, 0xf1, 0xf2, 0xf4,
  0xf5, 0xf6, 0xf7, 0xf8, 0xf9, 0xfa, 0xfb, 0xfb, 0xfc, 0xfd, 0xfd, 0xfe, 0xfe, 0xfe, 0xfe, 0xfe,
  0xff, 0xfe, 0xfe, 0xfe, 0xfe, 0xfe, 0xfd, 0xfd, 0xfc, 0xfb, 0xfb, 0xfa, 0xf9, 0xf8, 0xf7, 0xf6,
  0xf5, 0xf4, 0xf2, 0xf1, 0xf0, 0xee, 0xec, 0xeb, 0xe9, 0xe7, 0xe6, 0xe4, 0xe2, 0xe0, 0xde, 0xdb,
  0xd9, 0xd7, 0xd5, 0xd2, 0xd0, 0xce, 0xcb, 0xc9, 0xc6, 0xc3, 0xc1, 0xbe, 0xbb, 0xb9, 0xb6, 0xb3,
  0xb0, 0xad, 0xaa, 0xa7, 0xa4, 0xa1, 0x9e, 0x9b, 0x98, 0x95, 0x92, 0x8f, 0x8c, 0x89, 0x86, 0x83,
  0x80, 0x7c, 0x79, 0x76, 0x73, 0x70, 0x6d, 0x6a, 0x67, 0x64, 0x61, 0x5e, 0x5b, 0x58, 0x55, 0x52,
  0x4f, 0x4c, 0x49, 0x46, 0x44, 0x41, 0x3e, 0x3c, 0x39, 0x36, 0x34, 0x31, 0x2f, 0x2d, 0x2a, 0x28,
  0x26, 0x24, 0x21, 0x1f, 0x1d, 0x1b, 0x19, 0x18, 0x16, 0x14, 0x13, 0x11, 0x0f, 0x0e, 0x0d, 0x0b,
  0x0a, 0x09, 0x08, 0x07, 0x06, 0x05, 0x04, 0x04, 0x03, 0x02, 0x02, 0x01, 0x01, 0x01, 0x01, 0x01,
  0x01, 0x01, 0x01, 0x01, 0x01, 0x01, 0x02, 0x02, 0x03, 0x04, 0x04, 0x05, 0x06, 0x07, 0x08, 0x09,
  0x0a, 0x0b, 0x0d, 0x0e, 0x0f, 0x11, 0x13, 0x14, 0x16, 0x18, 0x19, 0x1b, 0x1d, 0x1f, 0x21, 0x24,
  0x26, 0x28, 0x2a, 0x2d, 0x2f, 0x31, 0x34, 0x36, 0x39, 0x3c, 0x3e, 0x41, 0x44, 0x46, 0x49, 0x4c,
  0x4f, 0x52, 0x55, 0x58, 0x5b, 0x5e, 0x61, 0x64, 0x67, 0x6a, 0x6d, 0x70, 0x73, 0x76, 0x79, 0x7c]

/-- The anonymous enumeration of `line_t.syncState` (lines 54-58). -/
inductive SyncState where
  | SYNC_STATE_IDLE
  | SYNC_STATE_MARK
  | SYNC_STATE_SPACE
  deriving DecidableEq, Repr

open SyncState

/-- The record `line_t` (lines 51-63); `lpfInBuf[3]` is three fields. -/
structure line_t where
  lastSample : Int
  lpfInBuf0 : Int
  lpfInBuf1 : Int
  lpfInBuf2 : Int
  syncState : SyncState
  sampsSinceLastStateChange : Int
  phaseOut : Nat
  deriving DecidableEq, Repr

/-- The global `line` together with the I/O registers the handlers write. -/
structure Machine where
  line : line_t
  PORTD : Nat
  OCR0A : Nat
  ADCSRA : Nat
  deriving DecidableEq, Repr

/-- Two's complement reduction to `int16_t`. -/
def wrap16 (x : Int) : Int := (x + 32768) % 65536 - 32768

/-- Two's complement reduction to `int8_t`. -/
def wrap8 (x : Int) : Int := (x + 128) % 256 - 128

/-- The zero-initialised global `line` (line 65). -/
def line0 : line_t :=
  { lastSample := 0, lpfInBuf0 := 0, lpfInBuf1 := 0, lpfInBuf2 := 0,
    syncState := SYNC_STATE_IDLE, sampsSinceLastStateChange := 0, phaseOut := 0 }

/-- The machine when `main` enables interrupts (line 162): `line` is all
zero, `PORTD` has its reset value, `OCR0A = 0x80` (line 148) and `ADCSRA` holds
`ADEN | ADPS2 | ADPS1 | ADPS0 | ADSC` (lines 154, 157). -/
def powerUp : Machine :=
  { line := line0, PORTD := 0, OCR0A := 0x80, ADCSRA := 0xC7 }

/-! ## The sampling handler `ISR(TIMER2_COMPA_vect)` -/

/-- Line 74: `sample = (int16_t)(ADC - 0x200)`; the subtraction is done in
`uint16_t`, the cast reinterprets it as signed. -/
def centre (ADC : Nat) : Int := wrap16 (((ADC : Int) - 0x200) % 65536)

/-- Line 75: `quadSample = sample * line.lastSample`, stored in an
`int16_t`. -/
def mix (sample lastSample : Int) : Int := wrap16 (sample * lastSample)

/-- Lines 74-76: the mixer; returns `quadSample` and stores the new
`lastSample`. -/
def mixer (ADC : Nat) (l : line_t) : Int × line_t :=
  let sample := centre ADC
  let quadSample := mix sample l.lastSample
  (quadSample, { l with lastSample := sample })

/-- Lines 78-91: the low-pass filter; returns `lpfSample` and stores the
three accumulators. -/
def lowPass (quadSample : Int) (l : line_t) : Int × line_t :=
  let t := l.lpfInBuf0
  let p := wrap16 (quadSample - t)
  let b0 := wrap16 ((p >>> 2) + (p >>> 4) + (p >>> 6) + t)
  let lpfSample := wrap16 (b0 - p)
  let t := l.lpfInBuf2
  let p := wrap16 (l.lpfInBuf1 - t)
  let b2 := wrap16 ((p >>> 4) + (p >>> 6) - (p >>> 8))
  let t := wrap16 (b2 - p)
  let p := wrap16 (quadSample - t)
  let b1 := wrap16 ((p >>> 2) + (p >>> 4) + (p >>> 7) + t)
  let lpfSample := wrap16 (lpfSample + (b1 - p))
  (lpfSample, { l with lpfInBuf0 := b0, lpfInBuf1 := b1, lpfInBuf2 := b2 })

/-- Lines 93-110: the bit-sync state machine, run on the filtered sample. -/
def bitSync (lpfSample : Int) (m : Machine) : Machine :=
  if m.line.syncState = SYNC_STATE_IDLE then
    if lpfSample < 0 then
      { m with line := { m.line with syncState := SYNC_STATE_SPACE } }
    else m
  else
    let c := wrap8 (m.line.sampsSinceLastStateChange + 1)
    let l := { m.line with sampsSinceLastStateChange := c }
    if c = 14 then
      { m with line := l,
               PORTD := ((m.PORTD &&& 0xFFFD) ||| (if lpfSample > 0 then 2 else 0)) % 256 }
    else if c > 32 then
      { m with line := { l with sampsSinceLastStateChange := wrap8 (c - 28) } }
    else if c > 24 then
      if l.syncState = SYNC_STATE_SPACE ∧ lpfSample > 0 then
        { m with line := { l with syncState := SYNC_STATE_MARK,
                                  sampsSinceLastStateChange := 0 } }
      else if l.syncState = SYNC_STATE_MARK ∧ lpfSample < 0 then
        { m with line := { l with syncState := SYNC_STATE_SPACE,
                                  sampsSinceLastStateChange := 0 } }
      else { m with line := l }
    else { m with line := l }

/-- The state on which the handler runs the bit-sync machine: `PORTD` after
line 72, `line` after lines 74-91. -/
def filtered (ADC : Nat) (m : Machine) : Machine :=
  { m with PORTD := (m.PORTD ||| 4) % 256,
           line := (lowPass (mixer ADC m.line).1 (mixer ADC m.line).2).2 }

/-- The filtered sample `lpfSample` that one run of the sampling handler
computes from the reading `ADC` in state `m` (lines 74-91). -/
def lpfSampleOf (ADC : Nat) (m : Machine) : Int :=
  (lowPass (mixer ADC m.line).1 (mixer ADC m.line).2).1

/-- The sampling handler `ISR(TIMER2_COMPA_vect)` (lines 67-118), run on the
ADC reading `ADC`. -/
def TIMER2_COMPA_vect (ADC : Nat) (m : Machine) : Machine :=
  let m := { m with PORTD := (m.PORTD ||| 4) % 256 }
  let (quadSample, l) := mixer ADC m.line
  let (lpfSample, l) := lowPass quadSample l
  let m := bitSync lpfSample { m with line := l }
  { m with ADCSRA := (m.ADCSRA ||| 64) % 256 }

/-- Consecutive sampling ticks, one per ADC reading of the list. -/
def runSamples (m : Machine) (adcs : List Nat) : Machine :=
  adcs.foldl (fun s a => TIMER2_COMPA_vect a s) m

/-- The condition of line 97 under which the handler writes the recovered
data bit: a tracking state whose incremented counter equals 14. -/
def latches (l : line_t) : Bool :=
  decide (l.syncState ≠ SYNC_STATE_IDLE) && decide (wrap8 (l.sampsSinceLastStateChange + 1) = 14)

/-! ## The carrier tick handler `ISR(TIMER0_OVF_vect)` -/

/-- The read `pgm_read_byte(&sinTable[i])`; `none` outside the table. -/
def pgm_read_sinTable (i : Nat) : Option Nat := sinTable[i]?

/-- Lines 123-127: the phase accumulator after the bit-dependent
increment, stored in a `uint16_t`. -/
def nextPhase (PIND : Nat) (phaseOut : Nat) : Nat :=
  if PIND &&& 1 ≠ 0 then (phaseOut + 4666) % 65536 else (phaseOut + 4247) % 65536

/-- The carrier tick handler `ISR(TIMER0_OVF_vect)` (lines 120-130), run
with the pin register reading `PIND`; `none` if the table read is out of
bounds. -/
def TIMER0_OVF_vect (PIND : Nat) (m : Machine) : Option Machine :=
  let phase := nextPhase PIND m.line.phaseOut
  match pgm_read_sinTable (phase >>> 8) with
  | some v => some { m with line := { m.line with phaseOut := phase }, OCR0A := (v >>> 2) % 256 }
  | none => none

/-- Consecutive carrier ticks, one per `PIND` reading of the list. -/
def runTicks (m : Machine) : List Nat → Option Machine
  | [] => some m
  | pin :: pins => (TIMER0_OVF_vect pin m).bind (fun s => runTicks s pins)

/-- A machine in sync state `s` with counter `c`, everything else as at
power-up; used to instantiate theorems at concrete states. -/
def tracking (s : SyncState) (c : Int) : Machine :=
  { powerUp with line := { line0 with syncState := s, sampsSinceLastStateChange := c } }

/-- The counter after one tracking tick on which no edge is confirmed
(lines 97-110 without the two assignments of `syncState`). -/
def freeRun (c : Int) : Int :=
  if wrap8 (c + 1) = 14 then 14
  else if wrap8 (c + 1) > 32 then wrap8 (wrap8 (c + 1) - 28)
  else wrap8 (c + 1)

/-- Whether the 16-bit addition of line 124 or 126 carries out of
`phaseOut` on a tick with pin reading `PIND`. -/
def carries (PIND : Nat) (phaseOut : Nat) : Bool :=
  if PIND &&& 1 ≠ 0 then decide (65536 ≤ phaseOut + 4666) else decide (65536 ≤ phaseOut + 4247)

/-- The number of carrier ticks, in a run on the given pin readings from
phase `phaseOut`, on which the phase accumulator overflows. -/
def overflowCount (phaseOut : Nat) : List Nat → Nat
  | [] => 0
  | pin :: pins =>
    (if carries pin phaseOut then 1 else 0) + overflowCount (nextPhase pin phaseOut) pins

/-! ## Structure of the sampling handler -/

theorem TIMER2_COMPA_vect_eq (ADC : Nat) (m : Machine) :
    TIMER2_COMPA_vect ADC m =
      { bitSync (lpfSampleOf ADC m) (filtered ADC m) with
        ADCSRA := ((bitSync (lpfSampleOf ADC m) (filtered ADC m)).ADCSRA ||| 64) % 256 } := rfl

theorem filtered_syncState (ADC : Nat) (m : Machine) :
    (filtered ADC m).line.syncState = m.line.syncState := rfl

theorem filtered_counter (ADC : Nat) (m : Machine) :
    (filtered ADC m).line.sampsSinceLastStateChange = m.line.sampsSinceLastStateChange := rfl

theorem isr_syncState (ADC : Nat) (m : Machine) :
    (TIMER2_COMPA_vect ADC m).line.syncState =
      (bitSync (lpfSampleOf ADC m) m).line.syncState := by
  rw [TIMER2_COMPA_vect_eq]
  simp only [bitSync, filtered_syncState, filtered_counter]
  split_ifs <;> rfl

theorem isr_counter (ADC : Nat) (m : Machine) :
    (TIMER2_COMPA_vect ADC m).line.sampsSinceLastStateChange =
      (bitSync (lpfSampleOf ADC m) m).line.sampsSinceLastStateChange := by
  rw [TIMER2_COMPA_vect_eq]
  simp only [bitSync, filtered_syncState, filtered_counter]
  split_ifs <;> rfl

theorem testBit1_or4 (p : Nat) : ((p ||| 4) % 256).testBit 1 = p.testBit 1 := by
  have h256 : (256 : Nat) = 2 ^ 8 := by norm_num
  have h4 : Nat.testBit 4 1 = false := by decide
  rw [h256, Nat.testBit_mod_two_pow, Nat.testBit_or, h4]
  simp

theorem testBit1_latch (p b : Nat) (hb : b = 0 ∨ b = 2) :
    (((p &&& 0xFFFD) ||| b) % 256).testBit 1 = decide (b = 2) := by
  have h256 : (256 : Nat) = 2 ^ 8 := by norm_num
  have hm : Nat.testBit 65533 1 = false := by decide
  have h2 : Nat.testBit 2 1 = true := by decide
  have h0 : Nat.testBit 0 1 = false := by decide
  rw [h256, Nat.testBit_mod_two_pow, Nat.testBit_or, Nat.testBit_and, hm]
  rcases hb with rfl | rfl <;> simp [h2, h0]

/-! ## Bit-sync state machine: single ticks -/

/-- C1. Edge detection.  In a tracking state (Mark or Space), for every
filtered sample: if the incremented counter lies in 25..32 then (a) Space with
a positive sample becomes Mark with counter 0, (b) Mark with a negative sample
becomes Space with counter 0, (c) otherwise the state is kept and the counter
keeps its incremented value; if the incremented counter is outside 25..32 the
tracked state is kept.  The handler runs this machine on its own filtered
sample (last two conjuncts). -/
theorem C1_edge_detection (lpfSample : Int) (m : Machine) (ADC : Nat)
    (htrack : m.line.syncState = SYNC_STATE_MARK ∨ m.line.syncState = SYNC_STATE_SPACE) :
    (25 ≤ wrap8 (m.line.sampsSinceLastStateChange + 1) ∧
        wrap8 (m.line.sampsSinceLastStateChange + 1) ≤ 32 →
      (m.line.syncState = SYNC_STATE_SPACE ∧ lpfSample > 0 →
        (bitSync lpfSample m).line.syncState = SYNC_STATE_MARK ∧
        (bitSync lpfSample m).line.sampsSinceLastStateChange = 0) ∧
      (m.line.syncState = SYNC_STATE_MARK ∧ lpfSample < 0 →
        (bitSync lpfSample m).line.syncState = SYNC_STATE_SPACE ∧
        (bitSync lpfSample m).line.sampsSinceLastStateChange = 0) ∧
      (¬ (m.line.syncState = SYNC_STATE_SPACE ∧ lpfSample > 0) ∧
         ¬ (m.line.syncState = SYNC_STATE_MARK ∧ lpfSample < 0) →
        (bitSync lpfSample m).line.syncState = m.line.syncState ∧
        (bitSync lpfSample m).line.sampsSinceLastStateChange =
          wrap8 (m.line.sampsSinceLastStateChange + 1))) ∧
    (¬ (25 ≤ wrap8 (m.line.sampsSinceLastStateChange + 1) ∧
        wrap8 (m.line.sampsSinceLastStateChange + 1) ≤ 32) →
      (bitSync lpfSample m).line.syncState = m.line.syncState) ∧
    (TIMER2_COMPA_vect ADC m).line.syncState =
      (bitSync (lpfSampleOf ADC m) m).line.syncState ∧
    (TIMER2_COMPA_vect ADC m).line.sampsSinceLastStateChange =
      (bitSync (lpfSampleOf ADC m) m).line.sampsSinceLastStateChange := by
  have hidle : m.line.syncState ≠ SYNC_STATE_IDLE := by
    rcases htrack with h | h <;> simp [h]
  refine ⟨?_, ?_, isr_syncState ADC m, isr_counter ADC m⟩
  · generalize hc : wrap8 (m.line.sampsSinceLastStateChange + 1) = c
    rintro ⟨h25, h32⟩
    have h14 : c ≠ 14 := by omega
    have hn32 : ¬ c > 32 := by omega
    have h24 : c > 24 := by omega
    refine ⟨?_, ?_, ?_⟩
    · rintro ⟨hs, hl⟩
      simp [bitSync, hidle, hc, h14, hn32, h24, hs, hl]
    · rintro ⟨hs, hl⟩
      simp [bitSync, hidle, hc, h14, hn32, h24, hs, hl]
    · rintro ⟨h1, h2⟩
      simp only [bitSync, hidle, hc, h14, hn32, h24, if_true, if_false, h1, h2]
      simp
  · generalize hc : wrap8 (m.line.sampsSinceLastStateChange + 1) = c
    intro hout
    simp only [bitSync, hidle, hc, if_false]
    split_ifs <;> simp_all <;> omega

/-- C1 at a concrete state: Space with counter 24 and filtered sample 5
becomes Mark with counter 0. -/
theorem C1_edge_detection_witness :
    (tracking SYNC_STATE_SPACE 24).line.syncState = SYNC_STATE_SPACE ∧
    (bitSync 5 (tracking SYNC_STATE_SPACE 24)).line.syncState = SYNC_STATE_MARK ∧
    (bitSync 5 (tracking SYNC_STATE_SPACE 24)).line.sampsSinceLastStateChange = 0 :=
  ⟨rfl, ((C1_edge_detection 5 (tracking SYNC_STATE_SPACE 24) 512 (Or.inr rfl)).1
    (by decide)).1 ⟨rfl, by decide⟩⟩

/-- C2. Bit latch.  On a sampling tick in a tracking state whose incremented
counter equals 14, bit 1 of `PORTD` becomes 1 if the filtered sample is
positive and 0 otherwise, `syncState` is kept and the counter is left at 14;
on a tick where the state is Idle or the incremented counter is not 14, bit 1
of `PORTD` is unchanged. -/
theorem C2_bit_latch (ADC : Nat) (m : Machine) :
    ((m.line.syncState = SYNC_STATE_MARK ∨ m.line.syncState = SYNC_STATE_SPACE) ∧
        wrap8 (m.line.sampsSinceLastStateChange + 1) = 14 →
      (TIMER2_COMPA_vect ADC m).PORTD.testBit 1 = decide (lpfSampleOf ADC m > 0) ∧
      (TIMER2_COMPA_vect ADC m).line.syncState = m.line.syncState ∧
      (TIMER2_COMPA_vect ADC m).line.sampsSinceLastStateChange = 14) ∧
    (m.line.syncState = SYNC_STATE_IDLE ∨
        wrap8 (m.line.sampsSinceLastStateChange + 1) ≠ 14 →
      (TIMER2_COMPA_vect ADC m).PORTD.testBit 1 = m.PORTD.testBit 1) := by
  rw [TIMER2_COMPA_vect_eq]
  generalize hlpf : lpfSampleOf ADC m = v
  constructor
  · rintro ⟨htrack, h14⟩
    have hidle : m.line.syncState ≠ SYNC_STATE_IDLE := by
      rcases htrack with h | h <;> simp [h]
    refine ⟨?_, ?_, ?_⟩
    · simp only [bitSync, filtered_syncState, filtered_counter, hidle, h14, if_true, if_false]
      rw [testBit1_latch _ _ (by split_ifs <;> simp)]
      by_cases hv : v > 0 <;> simp [hv]
    · simp [bitSync, filtered_syncState, filtered_counter, hidle, h14]
    · simp [bitSync, filtered_syncState, filtered_counter, hidle, h14]
  · intro h
    simp only [bitSync, filtered_syncState, filtered_counter]
    rcases h with h | h
    · simp only [h, if_true]
      split_ifs <;> exact testBit1_or4 m.PORTD
    · by_cases hi : m.line.syncState = SYNC_STATE_IDLE
      · simp only [hi, if_true]
        split_ifs <;> exact testBit1_or4 m.PORTD
      · simp only [hi, h, if_false]
        split_ifs <;> exact testBit1_or4 m.PORTD

/-- C2 at a concrete state: Mark with counter 13 at power-up levels; the
first reading 700 gives a zero filtered sample, so bit 1 is cleared. -/
theorem C2_bit_latch_witness :
    ((tracking SYNC_STATE_MARK 13).line.syncState = SYNC_STATE_MARK ∨
      (tracking SYNC_STATE_MARK 13).line.syncState = SYNC_STATE_SPACE) ∧
    wrap8 ((tracking SYNC_STATE_MARK 13).line.sampsSinceLastStateChange + 1) = 14 ∧
    (TIMER2_COMPA_vect 700 (tracking SYNC_STATE_MARK 13)).PORTD.testBit 1 =
      decide (lpfSampleOf 700 (tracking SYNC_STATE_MARK 13) > 0) ∧
    (TIMER2_COMPA_vect 700 (tracking SYNC_STATE_MARK 13)).line.syncState =
      (tracking SYNC_STATE_MARK 13).line.syncState ∧
    (TIMER2_COMPA_vect 700 (tracking SYNC_STATE_MARK 13)).line.sampsSinceLastStateChange = 14 :=
  ⟨Or.inl rfl, by decide,
    (C2_bit_latch 700 (tracking SYNC_STATE_MARK 13)).1 ⟨Or.inl rfl, by decide⟩⟩

/-- C3. Idle step.  From Idle, for every filtered sample, the bit-sync
machine moves to TrackingSpace exactly when the sample is negative and
otherwise stays Idle (never TrackingMark); the counter and bit 1 of `PORTD` are
unchanged by the whole tick, and the handler's new `syncState` is the one the
machine computes from the handler's filtered sample. -/
theorem C3_idle_step (lpfSample : Int) (m : Machine) (ADC : Nat)
    (hidle : m.line.syncState = SYNC_STATE_IDLE) :
    ((bitSync lpfSample m).line.syncState = SYNC_STATE_SPACE ↔ lpfSample < 0) ∧
    (¬ lpfSample < 0 → (bitSync lpfSample m).line.syncState = SYNC_STATE_IDLE) ∧
    (bitSync lpfSample m).line.syncState ≠ SYNC_STATE_MARK ∧
    (bitSync lpfSample m).line.sampsSinceLastStateChange =
      m.line.sampsSinceLastStateChange ∧
    (bitSync lpfSample m).PORTD = m.PORTD ∧
    (TIMER2_COMPA_vect ADC m).line.syncState =
      (bitSync (lpfSampleOf ADC m) m).line.syncState ∧
    (TIMER2_COMPA_vect ADC m).line.sampsSinceLastStateChange =
      m.line.sampsSinceLastStateChange ∧
    (TIMER2_COMPA_vect ADC m).PORTD.testBit 1 = m.PORTD.testBit 1 := by
  refine ⟨?_, ?_, ?_, ?_, ?_, isr_syncState ADC m, ?_, ?_⟩
  · by_cases h : lpfSample < 0 <;> simp [bitSync, hidle, h]
  · intro h
    simp [bitSync, hidle, h]
  · by_cases h : lpfSample < 0 <;> simp [bitSync, hidle, h]
  · by_cases h : lpfSample < 0 <;> simp [bitSync, hidle, h]
  · by_cases h : lpfSample < 0 <;> simp [bitSync, hidle, h]
  · rw [isr_counter]
    by_cases h : lpfSampleOf ADC m < 0 <;> simp [bitSync, hidle, h]
  · rw [TIMER2_COMPA_vect_eq]
    simp only [bitSync, filtered_syncState, hidle, if_true]
    split_ifs <;> exact testBit1_or4 m.PORTD

/-- C3 at power-up with filtered sample -2: the machine moves to
TrackingSpace. -/
theorem C3_idle_step_witness :
    powerUp.line.syncState = SYNC_STATE_IDLE ∧
    ((bitSync (-2) powerUp).line.syncState = SYNC_STATE_SPACE ↔ (-2 : Int) < 0) :=
  ⟨rfl, (C3_idle_step (-2) powerUp 512 rfl).1⟩

/-! ## Free-running symbol clock -/

theorem wrap8_bounds (x : Int) : -128 ≤ wrap8 x ∧ wrap8 x ≤ 127 := by
  unfold wrap8; omega

theorem runSamples_take_succ (m : Machine) (adcs : List Nat) (k : Nat) (hk : k < adcs.length) :
    runSamples m (adcs.take (k + 1)) =
      TIMER2_COMPA_vect (adcs.get ⟨k, hk⟩) (runSamples m (adcs.take k)) := by
  unfold runSamples
  rw [← List.take_concat_get' adcs k hk, List.foldl_append]
  rfl

theorem bitSync_freeRun (lpfSample : Int) (m : Machine)
    (hidle : m.line.syncState ≠ SYNC_STATE_IDLE)
    (hkeep : (bitSync lpfSample m).line.syncState = m.line.syncState) :
    (bitSync lpfSample m).line.sampsSinceLastStateChange =
      freeRun m.line.sampsSinceLastStateChange := by
  revert hkeep
  simp only [bitSync, freeRun, hidle, if_false]
  split_ifs <;> simp_all

theorem isr_freeRun (ADC : Nat) (m : Machine)
    (hidle : m.line.syncState ≠ SYNC_STATE_IDLE)
    (hkeep : (TIMER2_COMPA_vect ADC m).line.syncState = m.line.syncState) :
    (TIMER2_COMPA_vect ADC m).line.sampsSinceLastStateChange =
      freeRun m.line.sampsSinceLastStateChange := by
  rw [isr_syncState] at hkeep
  rw [isr_counter]
  exact bitSync_freeRun _ m hidle hkeep

theorem run_freeRun (m : Machine) (adcs : List Nat)
    (hidle : m.line.syncState ≠ SYNC_STATE_IDLE) :
    ∀ k, k ≤ adcs.length →
      (∀ j, j ≤ k → (runSamples m (adcs.take j)).line.syncState = m.line.syncState) →
      (runSamples m (adcs.take k)).line.sampsSinceLastStateChange =
        Nat.iterate freeRun k m.line.sampsSinceLastStateChange := by
  intro k
  induction k with
  | zero => intro _ _; rfl
  | succ k ih =>
    intro hk hkeep
    have hprev := ih (by omega) (fun j hj => hkeep j (by omega))
    have hsk := hkeep k (by omega)
    have hsk1 := hkeep (k + 1) (by omega)
    rw [runSamples_take_succ m adcs k (by omega)] at hsk1 ⊢
    rw [Function.iterate_succ_apply', ← hprev]
    apply isr_freeRun
    · rw [hsk]; exact hidle
    · rw [hsk1, hsk]

theorem freeRun_period :
    (∀ k, k < 27 → wrap8 (Nat.iterate freeRun k 14 + 1) ≠ 14) ∧
      wrap8 (Nat.iterate freeRun 27 14 + 1) = 14 := by
  decide

/-- C4. Free-running symbol clock.  In a tracking state, when the
incremented counter exceeds 32 the counter becomes the incremented value minus
28 (so 33 becomes 5, and it is never 0) and the tracked state is kept.
Consequently, if a tick latches the bit (incremented counter 14) and
`syncState` does not change on the following ticks, then none of the next 27
ticks latches and the 28th does. -/
theorem C4_free_running_clock (lpfSample : Int) (m : Machine) (ADC0 : Nat) (adcs : List Nat)
    (htrack : m.line.syncState = SYNC_STATE_MARK ∨ m.line.syncState = SYNC_STATE_SPACE) :
    (wrap8 (m.line.sampsSinceLastStateChange + 1) > 32 →
      (bitSync lpfSample m).line.sampsSinceLastStateChange =
        wrap8 (m.line.sampsSinceLastStateChange + 1) - 28 ∧
      (bitSync lpfSample m).line.sampsSinceLastStateChange ≠ 0 ∧
      (wrap8 (m.line.sampsSinceLastStateChange + 1) = 33 →
        (bitSync lpfSample m).line.sampsSinceLastStateChange = 5) ∧
      (bitSync lpfSample m).line.syncState = m.line.syncState) ∧
    (latches m.line = true → adcs.length = 28 →
      (∀ k, k ≤ 27 →
        (runSamples (TIMER2_COMPA_vect ADC0 m) (adcs.take k)).line.syncState =
          m.line.syncState) →
      (∀ k, k < 27 →
        latches (runSamples (TIMER2_COMPA_vect ADC0 m) (adcs.take k)).line = false) ∧
      latches (runSamples (TIMER2_COMPA_vect ADC0 m) (adcs.take 27)).line = true) := by
  have hidle : m.line.syncState ≠ SYNC_STATE_IDLE := by
    rcases htrack with h | h <;> simp [h]
  constructor
  · intro h32
    have hb := wrap8_bounds (m.line.sampsSinceLastStateChange + 1)
    have h14 : wrap8 (m.line.sampsSinceLastStateChange + 1) ≠ 14 := by omega
    have hw : wrap8 (wrap8 (m.line.sampsSinceLastStateChange + 1) - 28) =
        wrap8 (m.line.sampsSinceLastStateChange + 1) - 28 := by
      generalize wrap8 (m.line.sampsSinceLastStateChange + 1) = c at *
      unfold wrap8; omega
    have hcnt : (bitSync lpfSample m).line.sampsSinceLastStateChange =
        wrap8 (m.line.sampsSinceLastStateChange + 1) - 28 := by
      simp [bitSync, hidle, h14, h32, hw]
    refine ⟨hcnt, ?_, ?_, ?_⟩
    · rw [hcnt]; omega
    · intro h33; rw [hcnt, h33]; rfl
    · simp [bitSync, hidle, h14, h32]
  · intro hlatch hlen hkeep
    have h14 : wrap8 (m.line.sampsSinceLastStateChange + 1) = 14 := by
      simpa [latches, hidle] using hlatch
    have h0s : (TIMER2_COMPA_vect ADC0 m).line.syncState = m.line.syncState := by
      simpa using hkeep 0 (by omega)
    have h0c : (TIMER2_COMPA_vect ADC0 m).line.sampsSinceLastStateChange = 14 := by
      rw [isr_counter]; simp [bitSync, hidle, h14]
    have hrun : ∀ k, k ≤ 27 →
        (runSamples (TIMER2_COMPA_vect ADC0 m) (adcs.take k)).line.sampsSinceLastStateChange =
          Nat.iterate freeRun k 14 := by
      intro k hk
      rw [← h0c]
      apply run_freeRun _ adcs (by rw [h0s]; exact hidle) k (by omega)
      intro j hj
      rw [hkeep j (by omega), h0s]
    have hsync : ∀ k, k ≤ 27 →
        (runSamples (TIMER2_COMPA_vect ADC0 m) (adcs.take k)).line.syncState ≠
          SYNC_STATE_IDLE := by
      intro k hk; rw [hkeep k hk]; exact hidle
    constructor
    · intro k hk
      have hne := freeRun_period.1 k hk
      rw [← hrun k (by omega)] at hne
      simp [latches, hne]
    · have heq := freeRun_period.2
      rw [← hrun 27 (le_refl _)] at heq
      simp [latches, heq, hsync 27 (le_refl _)]

set_option maxRecDepth 20000 in
/-- C4 at a concrete run: Mark with counter 13 and 29 readings at the
midpoint (the filtered sample stays 0, so no edge is confirmed). -/
theorem C4_free_running_clock_witness :
    latches (tracking SYNC_STATE_MARK 13).line = true ∧
    (List.replicate 28 512).length = 28 ∧
    (∀ k, k < 27 → latches (runSamples (TIMER2_COMPA_vect 512 (tracking SYNC_STATE_MARK 13))
        ((List.replicate 28 512).take k)).line = false) ∧
    latches (runSamples (TIMER2_COMPA_vect 512 (tracking SYNC_STATE_MARK 13))
        ((List.replicate 28 512).take 27)).line = true :=
  ⟨by decide, by decide,
    (C4_free_running_clock 0 (tracking SYNC_STATE_MARK 13) 512 (List.replicate 28 512)
      (Or.inl rfl)).2 (by decide) (by decide) (by decide)⟩

/-! ## Tone synthesizer -/

set_option maxRecDepth 20000 in
theorem sinTable_length : sinTable.length = 256 := by decide

set_option maxRecDepth 20000 in
theorem sinTable_le : ∀ v ∈ sinTable, v ≤ 255 := by decide

theorem nextPhase_lt (PIND phaseOut : Nat) : nextPhase PIND phaseOut < 65536 := by
  unfold nextPhase; split_ifs <;> omega

theorem nextPhase_odd (PIND phaseOut : Nat) (h : PIND % 2 = 1) :
    nextPhase PIND phaseOut = (phaseOut + 4666) % 65536 := by
  simp [nextPhase, Nat.and_one_is_mod, h]

theorem nextPhase_even (PIND phaseOut : Nat) (h : PIND % 2 = 0) :
    nextPhase PIND phaseOut = (phaseOut + 4247) % 65536 := by
  simp [nextPhase, Nat.and_one_is_mod, h]

theorem TIMER0_OVF_vect_eq (PIND : Nat) (m : Machine) :
    ∃ v, sinTable[nextPhase PIND m.line.phaseOut / 256]? = some v ∧ v ≤ 255 ∧
      TIMER0_OVF_vect PIND m =
        some { m with line := { m.line with phaseOut := nextPhase PIND m.line.phaseOut },
                      OCR0A := v / 4 } := by
  have hlt := nextPhase_lt PIND m.line.phaseOut
  have hidx : nextPhase PIND m.line.phaseOut / 256 < sinTable.length := by
    rw [sinTable_length]; omega
  refine ⟨sinTable[nextPhase PIND m.line.phaseOut / 256], List.getElem?_eq_getElem hidx, ?_, ?_⟩
  · exact sinTable_le _ (List.getElem_mem _)
  · have hv : sinTable[nextPhase PIND m.line.phaseOut / 256] ≤ 255 :=
      sinTable_le _ (List.getElem_mem _)
    have hshift : nextPhase PIND m.line.phaseOut >>> 8 = nextPhase PIND m.line.phaseOut / 256 := by
      rw [Nat.shiftRight_eq_div_pow]
    have hmod : (sinTable[nextPhase PIND m.line.phaseOut / 256] >>> 2) % 256 =
        sinTable[nextPhase PIND m.line.phaseOut / 256] / 4 := by
      rw [Nat.shiftRight_eq_div_pow]; omega
    unfold TIMER0_OVF_vect pgm_read_sinTable
    dsimp only
    rw [hshift, List.getElem?_eq_getElem hidx]
    dsimp only
    rw [hmod]


theorem runTicks_cons (m : Machine) (pin : Nat) (pins : List Nat) :
    runTicks m (pin :: pins) =
      runTicks { m with line := { m.line with phaseOut := nextPhase pin m.line.phaseOut },
                        OCR0A := (sinTable.getD (nextPhase pin m.line.phaseOut / 256) 0) / 4 }
        pins := by
  obtain ⟨v, hv, _, htick⟩ := TIMER0_OVF_vect_eq pin m
  have hd : sinTable.getD (nextPhase pin m.line.phaseOut / 256) 0 = v := by
    rw [List.getD_eq_getElem?_getD, hv]; rfl
  rw [runTicks, htick, hd]
  rfl

theorem runTicks_phase (pins : List Nat) : ∀ m : Machine,
    ∃ m', runTicks m pins = some m' ∧
      m'.line.phaseOut % 65536 =
        (m.line.phaseOut + 4666 * pins.countP (fun p => decide (p % 2 = 1)) +
          4247 * pins.countP (fun p => decide (p % 2 = 0))) % 65536 := by
  induction pins with
  | nil => intro m; exact ⟨m, rfl, by simp⟩
  | cons pin pins ih =>
    intro m
    obtain ⟨m', hrun, hph⟩ := ih
      { m with line := { m.line with phaseOut := nextPhase pin m.line.phaseOut },
               OCR0A := (sinTable.getD (nextPhase pin m.line.phaseOut / 256) 0) / 4 }
    refine ⟨m', by rw [runTicks_cons, hrun], ?_⟩
    dsimp only at hph
    rw [hph]
    rcases Nat.mod_two_eq_zero_or_one pin with h | h
    · rw [nextPhase_even pin _ h]
      have hc1 : (pin :: pins).countP (fun p => decide (p % 2 = 1)) =
          pins.countP (fun p => decide (p % 2 = 1)) := by simp [List.countP_cons, h]
      have hc0 : (pin :: pins).countP (fun p => decide (p % 2 = 0)) =
          pins.countP (fun p => decide (p % 2 = 0)) + 1 := by simp [List.countP_cons, h]
      rw [hc1, hc0]
      omega
    · rw [nextPhase_odd pin _ h]
      have hc1 : (pin :: pins).countP (fun p => decide (p % 2 = 1)) =
          pins.countP (fun p => decide (p % 2 = 1)) + 1 := by simp [List.countP_cons, h]
      have hc0 : (pin :: pins).countP (fun p => decide (p % 2 = 0)) =
          pins.countP (fun p => decide (p % 2 = 0)) := by simp [List.countP_cons, h]
      rw [hc1, hc0]
      omega

theorem runTicks_phase_lt (pins : List Nat) : ∀ m m' : Machine,
    m.line.phaseOut < 65536 → runTicks m pins = some m' → m'.line.phaseOut < 65536 := by
  induction pins with
  | nil => intro m m' h hr; simp [runTicks] at hr; rw [← hr]; exact h
  | cons pin pins ih =>
    intro m m' _ hr
    rw [runTicks_cons] at hr
    exact ih _ m' (nextPhase_lt pin _) hr

theorem runTicks_concat (pins : List Nat) (pin : Nat) : ∀ m : Machine,
    runTicks m (pins ++ [pin]) = (runTicks m pins).bind (TIMER0_OVF_vect pin) := by
  induction pins with
  | nil =>
    intro m
    simp only [List.nil_append, runTicks, Option.some_bind, Option.bind_some]
  | cons p ps ih =>
    intro m
    rw [List.cons_append, runTicks_cons, runTicks_cons, ih]

/-- C5. Tone synthesizer step.  One carrier tick always completes; it sets
`phaseOut` to `(phaseOut + 4666) mod 65536` when bit 0 of `PIND` is 1 and to
`(phaseOut + 4247) mod 65536` when it is 0, and writes to `OCR0A` the value
`sinTable[newPhaseOut div 256] div 4`, indexed by the updated accumulator. -/
theorem C5_tone_step (PIND : Nat) (m : Machine) :
    ∃ m' v, TIMER0_OVF_vect PIND m = some m' ∧
      (PIND % 2 = 1 → m'.line.phaseOut = (m.line.phaseOut + 4666) % 65536) ∧
      (PIND % 2 = 0 → m'.line.phaseOut = (m.line.phaseOut + 4247) % 65536) ∧
      sinTable[m'.line.phaseOut / 256]? = some v ∧
      m'.OCR0A = v / 4 := by
  obtain ⟨v, hv, _, htick⟩ := TIMER0_OVF_vect_eq PIND m
  exact ⟨_, v, htick, fun h => nextPhase_odd PIND _ h, fun h => nextPhase_even PIND _ h, hv, rfl⟩

/-- C6. Phase continuity.  From a 16-bit starting phase, any finite sequence
of carrier ticks completes with `phaseOut = (p0 + 4666*k1 + 4247*k0) mod 65536`,
`k1` and `k0` being the numbers of ticks with outgoing bit 1 and 0; and each
tick advances the accumulator of the preceding tick by exactly 4666 (bit 1) or
4247 (bit 0) modulo 65536. -/
theorem C6_phase_continuity (m : Machine) (pins : List Nat)
    (hp : m.line.phaseOut < 65536) :
    (∃ m', runTicks m pins = some m' ∧
      m'.line.phaseOut =
        (m.line.phaseOut + 4666 * pins.countP (fun p => decide (p % 2 = 1)) +
          4247 * pins.countP (fun p => decide (p % 2 = 0))) % 65536) ∧
    (∀ k (hk : k < pins.length), ∃ a b,
      runTicks m (pins.take k) = some a ∧ runTicks m (pins.take (k + 1)) = some b ∧
      (pins.get ⟨k, hk⟩ % 2 = 1 → b.line.phaseOut = (a.line.phaseOut + 4666) % 65536) ∧
      (pins.get ⟨k, hk⟩ % 2 = 0 → b.line.phaseOut = (a.line.phaseOut + 4247) % 65536) ∧
      (b.line.phaseOut = (a.line.phaseOut + 4666) % 65536 ∨
        b.line.phaseOut = (a.line.phaseOut + 4247) % 65536)) := by
  constructor
  · obtain ⟨m', hrun, hph⟩ := runTicks_phase pins m
    refine ⟨m', hrun, ?_⟩
    rw [← hph, Nat.mod_eq_of_lt (runTicks_phase_lt pins m m' hp hrun)]
  · intro k hk
    obtain ⟨a, ha, _⟩ := runTicks_phase (pins.take k) m
    obtain ⟨v, _, _, htick⟩ := TIMER0_OVF_vect_eq (pins.get ⟨k, hk⟩) a
    refine ⟨a, { a with line := { a.line with
        phaseOut := nextPhase (pins.get ⟨k, hk⟩) a.line.phaseOut }, OCR0A := v / 4 },
      ha, ?_, fun h => nextPhase_odd _ _ h, fun h => nextPhase_even _ _ h, ?_⟩
    · rw [← List.take_concat_get' pins k hk, runTicks_concat, ha, Option.some_bind]
      exact htick
    · rcases Nat.mod_two_eq_zero_or_one (pins.get ⟨k, hk⟩) with h | h
      · exact Or.inr (nextPhase_even _ _ h)
      · exact Or.inl (nextPhase_odd _ _ h)

/-- C6 at a concrete run: start at phase 65000, bits 1, 0, 1. -/
theorem C6_phase_continuity_witness :
    ({ powerUp with line := { line0 with phaseOut := 65000 } } : Machine).line.phaseOut < 65536 ∧
    ∃ m', runTicks { powerUp with line := { line0 with phaseOut := 65000 } } [1, 0, 1] = some m' ∧
      m'.line.phaseOut =
        (65000 + 4666 * [1, 0, 1].countP (fun p => decide (p % 2 = 1)) +
          4247 * [1, 0, 1].countP (fun p => decide (p % 2 = 0))) % 65536 :=
  ⟨by decide,
    (C6_phase_continuity { powerUp with line := { line0 with phaseOut := 65000 } } [1, 0, 1]
      (by decide)).1⟩

/-- C7. Output safety and range.  For every `phaseOut` and outgoing bit the
table index (updated `phaseOut` shifted right by 8) is below the table length
256, so the read is inside the table and the tick completes, and the value
written to `OCR0A` is at most 63. -/
theorem C7_output_range (PIND : Nat) (m : Machine) :
    sinTable.length = 256 ∧
    nextPhase PIND m.line.phaseOut >>> 8 < sinTable.length ∧
    (pgm_read_sinTable (nextPhase PIND m.line.phaseOut >>> 8)).isSome = true ∧
    ∃ m', TIMER0_OVF_vect PIND m = some m' ∧ m'.OCR0A ≤ 63 := by
  have hlt := nextPhase_lt PIND m.line.phaseOut
  have hshift : nextPhase PIND m.line.phaseOut >>> 8 = nextPhase PIND m.line.phaseOut / 256 := by
    rw [Nat.shiftRight_eq_div_pow]
  have hidx : nextPhase PIND m.line.phaseOut >>> 8 < sinTable.length := by
    rw [sinTable_length, hshift]; omega
  obtain ⟨v, _, hv, htick⟩ := TIMER0_OVF_vect_eq PIND m
  refine ⟨sinTable_length, hidx, ?_, _, htick, ?_⟩
  · unfold pgm_read_sinTable
    rw [List.getElem?_eq_getElem hidx]; rfl
  · show v / 4 ≤ 63
    omega

/-! ## Quadrature mixer -/

/-- C8 (evaluation at the failing input).  With two consecutive readings
1023 the centred samples are both 511 and their product is 261121, but the
`int16_t` variable `quadSample` of the second tick holds -1023: the product
does not fit in 16 bits and its sign is lost. -/
theorem C8_mixer_overflow :
    (TIMER2_COMPA_vect 1023 powerUp).line.lastSample = 1023 - 512 ∧
    (mixer 1023 (TIMER2_COMPA_vect 1023 powerUp).line).1 = -1023 ∧
    ((1023 : Int) - 512) * (1023 - 512) = 261121 := by
  decide

/-- Where the product of the centred samples fits in an `int16_t`, the
mixer returns it exactly. -/
theorem mixer_exact (a b : Nat) (l : line_t) (ha : a ≤ 1023) (hl : l.lastSample = (b : Int) - 512)
    (hlo : -32768 ≤ ((a : Int) - 512) * ((b : Int) - 512))
    (hhi : ((a : Int) - 512) * ((b : Int) - 512) ≤ 32767) :
    (mixer a l).1 = ((a : Int) - 512) * ((b : Int) - 512) := by
  have hc : centre a = (a : Int) - 512 := by
    unfold centre wrap16; omega
  simp only [mixer, mix, hc, hl]
  generalize ((a : Int) - 512) * ((b : Int) - 512) = q at *
  unfold wrap16; omega

/-! ## Runs of the sampling handler from power-up -/

theorem isr_idle_counter (ADC : Nat) (m : Machine)
    (hinv : m.line.syncState = SYNC_STATE_IDLE → m.line.sampsSinceLastStateChange = 0) :
    (TIMER2_COMPA_vect ADC m).line.syncState = SYNC_STATE_IDLE →
      (TIMER2_COMPA_vect ADC m).line.sampsSinceLastStateChange = 0 := by
  rw [isr_syncState, isr_counter]
  by_cases hi : m.line.syncState = SYNC_STATE_IDLE
  · have h0 := hinv hi
    simp only [bitSync, hi, if_true]
    split_ifs <;> simp_all
  · simp only [bitSync, hi, if_false]
    split_ifs <;> simp_all

theorem isr_change_resets (ADC : Nat) (m : Machine)
    (hinv : m.line.syncState = SYNC_STATE_IDLE → m.line.sampsSinceLastStateChange = 0)
    (hch : (TIMER2_COMPA_vect ADC m).line.syncState ≠ m.line.syncState) :
    (TIMER2_COMPA_vect ADC m).line.syncState ≠ SYNC_STATE_IDLE ∧
      (TIMER2_COMPA_vect ADC m).line.sampsSinceLastStateChange = 0 := by
  revert hch
  rw [isr_syncState, isr_counter]
  by_cases hi : m.line.syncState = SYNC_STATE_IDLE
  · have h0 := hinv hi
    simp only [bitSync, hi, if_true]
    split_ifs <;> simp_all
  · simp only [bitSync, hi, if_false]
    split_ifs <;> simp_all

theorem isr_quiet (ADC : Nat) (m : Machine) (hidle : m.line.syncState ≠ SYNC_STATE_IDLE)
    (h0 : 0 ≤ m.line.sampsSinceLastStateChange) (h24 : m.line.sampsSinceLastStateChange < 24) :
    (TIMER2_COMPA_vect ADC m).line.syncState = m.line.syncState ∧
      (TIMER2_COMPA_vect ADC m).line.sampsSinceLastStateChange =
        m.line.sampsSinceLastStateChange + 1 := by
  rw [isr_syncState, isr_counter]
  have hw : wrap8 (m.line.sampsSinceLastStateChange + 1) = m.line.sampsSinceLastStateChange + 1 := by
    unfold wrap8; omega
  have h32 : ¬ m.line.sampsSinceLastStateChange + 1 > 32 := by omega
  have h25 : ¬ m.line.sampsSinceLastStateChange + 1 > 24 := by omega
  simp only [bitSync, hidle, hw, h32, h25, if_false]
  split_ifs <;> exact ⟨rfl, rfl⟩

theorem run_idle_counter (m : Machine) (adcs : List Nat)
    (hinv : m.line.syncState = SYNC_STATE_IDLE → m.line.sampsSinceLastStateChange = 0) :
    ∀ k, k ≤ adcs.length →
      (runSamples m (adcs.take k)).line.syncState = SYNC_STATE_IDLE →
      (runSamples m (adcs.take k)).line.sampsSinceLastStateChange = 0 := by
  intro k
  induction k with
  | zero => intro _; exact hinv
  | succ k ih =>
    intro hk
    rw [runSamples_take_succ m adcs k (by omega)]
    exact isr_idle_counter _ _ (ih (by omega))

theorem run_quiet (m : Machine) (adcs : List Nat) (i : Nat)
    (hidle : (runSamples m (adcs.take i)).line.syncState ≠ SYNC_STATE_IDLE)
    (hzero : (runSamples m (adcs.take i)).line.sampsSinceLastStateChange = 0) :
    ∀ d, d ≤ 24 → i + d ≤ adcs.length →
      (runSamples m (adcs.take (i + d))).line.syncState =
        (runSamples m (adcs.take i)).line.syncState ∧
      (runSamples m (adcs.take (i + d))).line.sampsSinceLastStateChange = d := by
  intro d
  induction d with
  | zero => intro _ _; exact ⟨rfl, by simpa using hzero⟩
  | succ d ih =>
    intro hd hlen
    obtain ⟨hs, hc⟩ := ih (by omega) (by omega)
    have hstep := isr_quiet (adcs.get ⟨i + d, by omega⟩) (runSamples m (adcs.take (i + d)))
      (by rw [hs]; exact hidle) (by rw [hc]; omega) (by rw [hc]; omega)
    rw [← runSamples_take_succ m adcs (i + d) (by omega)] at hstep
    rw [show i + (d + 1) = i + d + 1 by omega]
    refine ⟨by rw [hstep.1, hs], ?_⟩
    rw [hstep.2, hc]; push_cast; ring

/-- C9. No spurious multiple edges.  In a run of the sampling handler from
power-up on any sequence of ADC readings, if `syncState` changes on tick `i`
and on a later tick `j` (ticks numbered from 0, tick `k` taking the state after
the first `k` readings to the state after `k + 1`), then `j` is at least 25
ticks after `i`. -/
theorem C9_edges_apart (adcs : List Nat) (i j : Nat) (hij : i < j) (hj : j < adcs.length)
    (hchi : (runSamples powerUp (adcs.take (i + 1))).line.syncState ≠
      (runSamples powerUp (adcs.take i)).line.syncState)
    (hchj : (runSamples powerUp (adcs.take (j + 1))).line.syncState ≠
      (runSamples powerUp (adcs.take j)).line.syncState) :
    i + 25 ≤ j := by
  by_contra hlt
  have hinv0 : powerUp.line.syncState = SYNC_STATE_IDLE →
      powerUp.line.sampsSinceLastStateChange = 0 := fun _ => rfl
  have hinvi := run_idle_counter powerUp adcs hinv0 i (by omega)
  rw [runSamples_take_succ powerUp adcs i (by omega)] at hchi
  obtain ⟨hne, hz⟩ := isr_change_resets _ _ hinvi hchi
  rw [← runSamples_take_succ powerUp adcs i (by omega)] at hne hz
  have hq := run_quiet powerUp adcs (i + 1) hne hz
  have h1 := (hq (j - (i + 1)) (by omega) (by omega)).1
  have h2 := (hq (j + 1 - (i + 1)) (by omega) (by omega)).1
  rw [show i + 1 + (j - (i + 1)) = j by omega] at h1
  rw [show i + 1 + (j + 1 - (i + 1)) = j + 1 by omega] at h2
  exact hchj (by rw [h1, h2])


set_option maxRecDepth 20000 in
/-- C9 at a concrete run: 27 readings at level 600; `syncState` changes on
tick 1 (Idle to Space) and next on tick 26 (Space to Mark), exactly 25 ticks
later. -/
theorem C9_edges_apart_witness :
    ((runSamples powerUp ((List.replicate 27 600).take (1 + 1))).line.syncState ≠
      (runSamples powerUp ((List.replicate 27 600).take 1)).line.syncState) ∧
    ((runSamples powerUp ((List.replicate 27 600).take (26 + 1))).line.syncState ≠
      (runSamples powerUp ((List.replicate 27 600).take 26)).line.syncState) ∧
    1 + 25 ≤ 26 :=
  ⟨by decide, by decide,
    C9_edges_apart (List.replicate 27 600) 1 26 (by decide) (by decide) (by decide) (by decide)⟩

/-! ## Constant input level -/

theorem isr_silence (m : Machine) (h : m.line = line0) :
    (TIMER2_COMPA_vect 512 m).line = line0 := by
  obtain ⟨l, pd, oc, ad⟩ := m
  subst h
  rfl

theorem run_silence (n : Nat) : ∀ m : Machine, m.line = line0 →
    (runSamples m (List.replicate n 512)).line = line0 := by
  induction n with
  | zero => intro m h; exact h
  | succ n ih =>
    intro m h
    rw [List.replicate_succ]
    exact ih _ (isr_silence m h)

/-- C10 (counterexample).  The level 513 is in 0..1023, and holding it for
two sampling ticks from power-up takes the bit-sync machine out of Idle: the
mixed sample of the second tick is 1, its filtered sample is -2, and
`syncState` becomes TrackingSpace. -/
theorem C10_counterexample :
    (513 : Nat) ≤ 1023 ∧
    (mixer 513 (runSamples powerUp (List.replicate 1 513)).line).1 = 1 ∧
    lpfSampleOf 513 (runSamples powerUp (List.replicate 1 513)) = -2 ∧
    (runSamples powerUp (List.replicate 2 513)).line.syncState = SYNC_STATE_SPACE := by
  decide

/-- C10 (amended).  With the ADC held at the midpoint level 512 on every
sampling tick from power-up, the bit-sync machine is Idle after every tick and
the counter `sampsSinceLastStateChange` stays 0. -/
theorem C10_idle_at_midpoint (n : Nat) :
    (runSamples powerUp (List.replicate n 512)).line.syncState = SYNC_STATE_IDLE ∧
    (runSamples powerUp (List.replicate n 512)).line.sampsSinceLastStateChange = 0 := by
  rw [run_silence n powerUp rfl]
  exact ⟨rfl, rfl⟩

/-! ## Frame properties of the two handlers -/

theorem bitSync_frame (v : Int) (m : Machine) :
    (bitSync v m).line.lastSample = m.line.lastSample ∧
    (bitSync v m).line.lpfInBuf0 = m.line.lpfInBuf0 ∧
    (bitSync v m).line.lpfInBuf1 = m.line.lpfInBuf1 ∧
    (bitSync v m).line.lpfInBuf2 = m.line.lpfInBuf2 ∧
    (bitSync v m).line.phaseOut = m.line.phaseOut ∧
    (bitSync v m).OCR0A = m.OCR0A := by
  simp only [bitSync]
  split_ifs <;> exact ⟨rfl, rfl, rfl, rfl, rfl, rfl⟩

theorem centre_eq (ADC : Nat) (ha : ADC ≤ 1023) : centre ADC = (ADC : Int) - 512 := by
  unfold centre wrap16; omega

theorem isr_lastSample (ADC : Nat) (m : Machine) :
    (TIMER2_COMPA_vect ADC m).line.lastSample = centre ADC := by
  rw [TIMER2_COMPA_vect_eq]
  exact (bitSync_frame _ _).1

theorem testBit2_or4 (p : Nat) : ((p ||| 4) % 256).testBit 2 = true := by
  have h256 : (256 : Nat) = 2 ^ 8 := by norm_num
  have h4 : Nat.testBit 4 2 = true := by decide
  rw [h256, Nat.testBit_mod_two_pow, Nat.testBit_or, h4]
  simp

theorem testBit2_latch (p b : Nat) (hp : p.testBit 2 = true) :
    (((p &&& 0xFFFD) ||| b) % 256).testBit 2 = true := by
  have h256 : (256 : Nat) = 2 ^ 8 := by norm_num
  have hm : Nat.testBit 65533 2 = true := by decide
  rw [h256, Nat.testBit_mod_two_pow, Nat.testBit_or, Nat.testBit_and, hm, hp]
  simp

/-- C11. Delay line.  For every prior state and every ADC reading `a` in
0..1023, after one sampling tick `lastSample` is the centred sample `a - 512`,
a value in -512..511, whatever the previous `lastSample`, filter state and sync
state were.  The mixer is the only writer: it multiplies the new sample by the
old `lastSample` and then stores the new one; the filter and the bit-sync
machine leave `lastSample` alone. -/
theorem C11_delay_line (ADC : Nat) (m : Machine) (q v : Int) (ha : ADC ≤ 1023) :
    (TIMER2_COMPA_vect ADC m).line.lastSample = (ADC : Int) - 512 ∧
    -512 ≤ (TIMER2_COMPA_vect ADC m).line.lastSample ∧
    (TIMER2_COMPA_vect ADC m).line.lastSample ≤ 511 ∧
    (mixer ADC m.line).1 = wrap16 (((ADC : Int) - 512) * m.line.lastSample) ∧
    (mixer ADC m.line).2.lastSample = (ADC : Int) - 512 ∧
    (lowPass q m.line).2.lastSample = m.line.lastSample ∧
    (bitSync v m).line.lastSample = m.line.lastSample := by
  have hc := centre_eq ADC ha
  have hl := isr_lastSample ADC m
  rw [hc] at hl
  refine ⟨hl, by rw [hl]; omega, by rw [hl]; omega, ?_, ?_, rfl, (bitSync_frame v m).1⟩
  · simp only [mixer, mix, hc]
  · simp only [mixer, hc]

/-- C11 at a concrete tick: reading 700 in a Mark state with counter 13. -/
theorem C11_delay_line_witness :
    (700 : Nat) ≤ 1023 ∧
    (TIMER2_COMPA_vect 700 (tracking SYNC_STATE_MARK 13)).line.lastSample = (700 : Int) - 512 :=
  ⟨by decide, (C11_delay_line 700 (tracking SYNC_STATE_MARK 13) 0 0 (by decide)).1⟩

/-- C12. Field ownership.  The sampling handler leaves `phaseOut` (and
`OCR0A`) unchanged; the carrier tick handler completes and leaves `lastSample`,
the three filter accumulators, `syncState` and `sampsSinceLastStateChange`
(and `PORTD`, `ADCSRA`) unchanged. -/
theorem C12_field_ownership (ADC PIND : Nat) (m : Machine) :
    (TIMER2_COMPA_vect ADC m).line.phaseOut = m.line.phaseOut ∧
    (TIMER2_COMPA_vect ADC m).OCR0A = m.OCR0A ∧
    ∃ m', TIMER0_OVF_vect PIND m = some m' ∧
      m'.line.lastSample = m.line.lastSample ∧
      m'.line.lpfInBuf0 = m.line.lpfInBuf0 ∧
      m'.line.lpfInBuf1 = m.line.lpfInBuf1 ∧
      m'.line.lpfInBuf2 = m.line.lpfInBuf2 ∧
      m'.line.syncState = m.line.syncState ∧
      m'.line.sampsSinceLastStateChange = m.line.sampsSinceLastStateChange ∧
      m'.PORTD = m.PORTD ∧ m'.ADCSRA = m.ADCSRA := by
  obtain ⟨v, _, _, htick⟩ := TIMER0_OVF_vect_eq PIND m
  refine ⟨?_, ?_, _, htick, rfl, rfl, rfl, rfl, rfl, rfl, rfl, rfl⟩
  · rw [TIMER2_COMPA_vect_eq]
    exact (bitSync_frame _ _).2.2.2.2.1
  · rw [TIMER2_COMPA_vect_eq]
    exact (bitSync_frame _ _).2.2.2.2.2

/-- C13 (counterexample).  After the first sampling tick from power-up bit 2
of `PORTD` is 1, and after the second tick it is still 1, not its
complement. -/
theorem C13_counterexample :
    (TIMER2_COMPA_vect 512 powerUp).PORTD.testBit 2 = true ∧
    (TIMER2_COMPA_vect 512 (TIMER2_COMPA_vect 512 powerUp)).PORTD.testBit 2 ≠
      !((TIMER2_COMPA_vect 512 powerUp).PORTD.testBit 2) := by
  decide

/-- C13 (amended).  Every sampling tick sets bit 2 of `PORTD`: after the
handler the bit is 1, whatever the port value, the line state and the reading
were before. -/
theorem C13_pulse_set (ADC : Nat) (m : Machine) :
    (TIMER2_COMPA_vect ADC m).PORTD.testBit 2 = true := by
  rw [TIMER2_COMPA_vect_eq]
  have h4 : (filtered ADC m).PORTD.testBit 2 = true := testBit2_or4 m.PORTD
  simp only [bitSync]
  split_ifs
  all_goals first
    | exact h4
    | exact testBit2_latch _ _ h4

/-! ## Reachable states of the sampling handler -/

theorem isr_counter_range (ADC : Nat) (m : Machine)
    (h0 : 0 ≤ m.line.sampsSinceLastStateChange) (h32 : m.line.sampsSinceLastStateChange ≤ 32)
    (hinv : m.line.syncState = SYNC_STATE_IDLE → m.line.sampsSinceLastStateChange = 0) :
    0 ≤ (TIMER2_COMPA_vect ADC m).line.sampsSinceLastStateChange ∧
    (TIMER2_COMPA_vect ADC m).line.sampsSinceLastStateChange ≤ 32 ∧
    ((TIMER2_COMPA_vect ADC m).line.syncState = SYNC_STATE_IDLE →
      (TIMER2_COMPA_vect ADC m).line.sampsSinceLastStateChange = 0) := by
  refine ⟨?_, ?_, isr_idle_counter ADC m hinv⟩
  · rw [isr_counter]
    by_cases hi : m.line.syncState = SYNC_STATE_IDLE
    · simp only [bitSync, hi, if_true]
      split_ifs <;> exact h0
    · have hw : wrap8 (m.line.sampsSinceLastStateChange + 1) =
          m.line.sampsSinceLastStateChange + 1 := by unfold wrap8; omega
      simp only [bitSync, hi, hw, if_false]
      split_ifs <;> simp only [] <;> first | omega | (unfold wrap8; omega)
  · rw [isr_counter]
    by_cases hi : m.line.syncState = SYNC_STATE_IDLE
    · simp only [bitSync, hi, if_true]
      split_ifs <;> exact h32
    · have hw : wrap8 (m.line.sampsSinceLastStateChange + 1) =
          m.line.sampsSinceLastStateChange + 1 := by unfold wrap8; omega
      simp only [bitSync, hi, hw, if_false]
      split_ifs <;> simp only [] <;> first | omega | (unfold wrap8; omega)

theorem run_counter_range (adcs : List Nat) : ∀ m : Machine,
    0 ≤ m.line.sampsSinceLastStateChange → m.line.sampsSinceLastStateChange ≤ 32 →
    (m.line.syncState = SYNC_STATE_IDLE → m.line.sampsSinceLastStateChange = 0) →
    0 ≤ (runSamples m adcs).line.sampsSinceLastStateChange ∧
    (runSamples m adcs).line.sampsSinceLastStateChange ≤ 32 ∧
    ((runSamples m adcs).line.syncState = SYNC_STATE_IDLE →
      (runSamples m adcs).line.sampsSinceLastStateChange = 0) := by
  induction adcs with
  | nil => intro m h0 h32 hinv; exact ⟨h0, h32, hinv⟩
  | cons a l ih =>
    intro m h0 h32 hinv
    obtain ⟨h0', h32', hinv'⟩ := isr_counter_range a m h0 h32 hinv
    exact ih (TIMER2_COMPA_vect a m) h0' h32' hinv'

/-- C20. Counter range invariant.  In every state reached from power-up by
any sequence of sampling ticks, `0 <= sampsSinceLastStateChange <= 32`, and
the counter is 0 whenever `syncState` is Idle; hence the pre-increment of the
`int8_t` counter does not wrap and the incremented value lies in 1..33. -/
theorem C20_counter_range (adcs : List Nat) :
    0 ≤ (runSamples powerUp adcs).line.sampsSinceLastStateChange ∧
    (runSamples powerUp adcs).line.sampsSinceLastStateChange ≤ 32 ∧
    ((runSamples powerUp adcs).line.syncState = SYNC_STATE_IDLE →
      (runSamples powerUp adcs).line.sampsSinceLastStateChange = 0) ∧
    wrap8 ((runSamples powerUp adcs).line.sampsSinceLastStateChange + 1) =
      (runSamples powerUp adcs).line.sampsSinceLastStateChange + 1 ∧
    1 ≤ wrap8 ((runSamples powerUp adcs).line.sampsSinceLastStateChange + 1) ∧
    wrap8 ((runSamples powerUp adcs).line.sampsSinceLastStateChange + 1) ≤ 33 := by
  obtain ⟨h0, h32, hinv⟩ := run_counter_range adcs powerUp (by decide) (by decide) (fun _ => rfl)
  have hw : wrap8 ((runSamples powerUp adcs).line.sampsSinceLastStateChange + 1) =
      (runSamples powerUp adcs).line.sampsSinceLastStateChange + 1 := by unfold wrap8; omega
  refine ⟨h0, h32, hinv, hw, ?_, ?_⟩ <;> rw [hw] <;> omega


/-! ## Output bit along a run -/

theorem isr_bit1_keep (ADC : Nat) (m : Machine) (h : latches m.line = false) :
    (TIMER2_COMPA_vect ADC m).PORTD.testBit 1 = m.PORTD.testBit 1 := by
  rw [TIMER2_COMPA_vect_eq]
  simp only [bitSync, filtered_syncState, filtered_counter]
  by_cases hi : m.line.syncState = SYNC_STATE_IDLE
  · simp only [hi, if_true]
    split_ifs <;> exact testBit1_or4 m.PORTD
  · have h14 : ¬ wrap8 (m.line.sampsSinceLastStateChange + 1) = 14 := by
      simpa [latches, hi] using h
    simp only [hi, h14, if_false]
    split_ifs <;> exact testBit1_or4 m.PORTD

theorem isr_bit1_latch (ADC : Nat) (m : Machine) (h : latches m.line = true) :
    (TIMER2_COMPA_vect ADC m).PORTD.testBit 1 = decide (lpfSampleOf ADC m > 0) := by
  have hi : m.line.syncState ≠ SYNC_STATE_IDLE := by
    intro hi; simp [latches, hi] at h
  have h14 : wrap8 (m.line.sampsSinceLastStateChange + 1) = 14 := by
    simpa [latches, hi] using h
  rw [TIMER2_COMPA_vect_eq]
  generalize lpfSampleOf ADC m = v
  simp only [bitSync, filtered_syncState, filtered_counter, hi, h14, if_true, if_false]
  rw [testBit1_latch _ _ (by split_ifs <;> simp)]
  by_cases hv : v > 0 <;> simp [hv]

/-- C15. Centre sampling after re-anchoring.  In a run from power-up on any
readings, if `syncState` changes on tick `i` then the counter is 0 afterwards,
none of the ticks `i+1 .. i+13` latches (bit 1 of `PORTD` keeps the value it
had after tick `i`), tick `i+14` latches and sets bit 1 of `PORTD` to
(filtered sample of tick `i+14` > 0), and `syncState` does not change on any
of the ticks `i+1 .. i+14`.  Tick `k` takes the state after the first `k`
readings to the state after `k + 1`. -/
theorem C15_centre_sampling (adcs : List Nat) (i : Nat) (hlen : i + 14 < adcs.length)
    (hch : (runSamples powerUp (adcs.take (i + 1))).line.syncState ≠
      (runSamples powerUp (adcs.take i)).line.syncState) :
    (runSamples powerUp (adcs.take (i + 1))).line.sampsSinceLastStateChange = 0 ∧
    (∀ d, d < 13 → latches (runSamples powerUp (adcs.take (i + 1 + d))).line = false) ∧
    (∀ d, d ≤ 13 → (runSamples powerUp (adcs.take (i + 1 + d))).PORTD.testBit 1 =
      (runSamples powerUp (adcs.take (i + 1))).PORTD.testBit 1) ∧
    latches (runSamples powerUp (adcs.take (i + 14))).line = true ∧
    (runSamples powerUp (adcs.take (i + 15))).PORTD.testBit 1 =
      decide (lpfSampleOf (adcs.get ⟨i + 14, hlen⟩)
        (runSamples powerUp (adcs.take (i + 14))) > 0) ∧
    (∀ d, d ≤ 14 → (runSamples powerUp (adcs.take (i + 1 + d))).line.syncState =
      (runSamples powerUp (adcs.take (i + 1))).line.syncState) := by
  have hinvi := run_idle_counter powerUp adcs (fun _ => rfl) i (by omega)
  rw [runSamples_take_succ powerUp adcs i (by omega)] at hch
  obtain ⟨hne, hz⟩ := isr_change_resets _ _ hinvi hch
  rw [← runSamples_take_succ powerUp adcs i (by omega)] at hne hz
  have hq := run_quiet powerUp adcs (i + 1) hne hz
  have hnolatch : ∀ d, d < 13 →
      latches (runSamples powerUp (adcs.take (i + 1 + d))).line = false := by
    intro d hd
    obtain ⟨_, hc⟩ := hq d (by omega) (by omega)
    have hw : ¬ wrap8 ((d : Int) + 1) = 14 := by unfold wrap8; omega
    simp [latches, hc, hw]
  have hlatch : latches (runSamples powerUp (adcs.take (i + 14))).line = true := by
    obtain ⟨hs, hc⟩ := hq 13 (by omega) (by omega)
    have hne13 : (runSamples powerUp (adcs.take (i + 1 + 13))).line.syncState ≠
        SYNC_STATE_IDLE := by rw [hs]; exact hne
    have hw : wrap8 14 = 14 := by decide
    rw [show i + 14 = i + 1 + 13 by omega]
    simp [latches, hc, hw, hne13]
  refine ⟨hz, hnolatch, ?_, hlatch, ?_, fun d hd => (hq d (by omega) (by omega)).1⟩
  · intro d
    induction d with
    | zero => intro _; rfl
    | succ d ih =>
      intro hd
      rw [show i + 1 + (d + 1) = i + 1 + d + 1 by omega,
        runSamples_take_succ powerUp adcs (i + 1 + d) (by omega),
        isr_bit1_keep _ _ (hnolatch d (by omega))]
      exact ih (by omega)
  · rw [runSamples_take_succ powerUp adcs (i + 14) hlen]
    exact isr_bit1_latch _ _ hlatch

set_option maxRecDepth 20000 in
/-- C15 at a concrete run: 16 readings at level 600; `syncState` changes on
tick 1 and the bit is latched on tick 15. -/
theorem C15_centre_sampling_witness :
    ((runSamples powerUp ((List.replicate 16 600).take (1 + 1))).line.syncState ≠
      (runSamples powerUp ((List.replicate 16 600).take 1)).line.syncState) ∧
    latches (runSamples powerUp ((List.replicate 16 600).take (1 + 14))).line = true :=
  ⟨by decide,
    (C15_centre_sampling (List.replicate 16 600) 1 (by decide) (by decide)).2.2.2.1⟩

/-! ## Silence -/

theorem isr_silence_PORTD (m : Machine) (h : m.line = line0) :
    (TIMER2_COMPA_vect 0x200 m).PORTD = (m.PORTD ||| 4) % 256 := by
  obtain ⟨l, pd, oc, ad⟩ := m
  subst h
  rfl

theorem run_silence_bit1 (n : Nat) : ∀ m : Machine, m.line = line0 →
    (runSamples m (List.replicate n 0x200)).PORTD.testBit 1 = m.PORTD.testBit 1 := by
  induction n with
  | zero => intro m _; rfl
  | succ n ih =>
    intro m h
    rw [List.replicate_succ]
    show (runSamples (TIMER2_COMPA_vect 0x200 m) (List.replicate n 0x200)).PORTD.testBit 1 = _
    rw [ih _ (isr_silence m h), isr_silence_PORTD m h]
    exact testBit1_or4 m.PORTD

theorem lpfSampleOf_silence (m : Machine) (h : m.line = line0) : lpfSampleOf 0x200 m = 0 := by
  obtain ⟨l, pd, oc, ad⟩ := m
  subst h
  rfl

/-- C16. Silence keeps the receiver idle.  From power-up, with every ADC
reading equal to the midpoint 0x200, after any number `n` of sampling ticks
`lastSample` and the three filter accumulators are 0, the filtered sample of
the next tick is 0, `syncState` is Idle, the counter is 0, the state does not
latch, and bit 1 of `PORTD` still has its power-up value 0. -/
theorem C16_silence (n : Nat) :
    (runSamples powerUp (List.replicate n 0x200)).line.lastSample = 0 ∧
    (runSamples powerUp (List.replicate n 0x200)).line.lpfInBuf0 = 0 ∧
    (runSamples powerUp (List.replicate n 0x200)).line.lpfInBuf1 = 0 ∧
    (runSamples powerUp (List.replicate n 0x200)).line.lpfInBuf2 = 0 ∧
    lpfSampleOf 0x200 (runSamples powerUp (List.replicate n 0x200)) = 0 ∧
    (runSamples powerUp (List.replicate n 0x200)).line.syncState = SYNC_STATE_IDLE ∧
    (runSamples powerUp (List.replicate n 0x200)).line.sampsSinceLastStateChange = 0 ∧
    latches (runSamples powerUp (List.replicate n 0x200)).line = false ∧
    (runSamples powerUp (List.replicate n 0x200)).PORTD.testBit 1 = false := by
  have hline := run_silence n powerUp rfl
  refine ⟨?_, ?_, ?_, ?_, lpfSampleOf_silence _ hline, ?_, ?_, ?_, ?_⟩
  · rw [hline]; rfl
  · rw [hline]; rfl
  · rw [hline]; rfl
  · rw [hline]; rfl
  · rw [hline]; rfl
  · rw [hline]; rfl
  · rw [hline]; rfl
  · rw [run_silence_bit1 n powerUp rfl]; rfl

/-! ## First filter stage -/

theorem shiftRight_eq_ediv (p : Int) (n : Nat) : p >>> (n : Int) = p / ((2 ^ n : Nat) : Int) := by
  rw [← Int.shiftRight_eq_div_pow]
  cases p with
  | ofNat m => exact Int.shiftRight_coe_nat m n
  | negSucc m => exact Int.shiftRight_negSucc m n

theorem shift_div (p : Int) :
    p >>> 2 = p / 4 ∧ p >>> 4 = p / 16 ∧ p >>> 6 = p / 64 :=
  ⟨shiftRight_eq_ediv p 2, shiftRight_eq_ediv p 4, shiftRight_eq_ediv p 6⟩

theorem shift_floor (p : Int) :
    p >>> 2 = ⌊(p : ℚ) / 4⌋ ∧ p >>> 4 = ⌊(p : ℚ) / 16⌋ ∧ p >>> 6 = ⌊(p : ℚ) / 64⌋ := by
  have h4 := Rat.floor_intCast_div_natCast p 4
  have h16 := Rat.floor_intCast_div_natCast p 16
  have h64 := Rat.floor_intCast_div_natCast p 64
  simp only [Nat.cast_ofNat] at h4 h16 h64
  obtain ⟨d4, d16, d64⟩ := shift_div p
  rw [h4, h16, h64]
  exact ⟨d4, d16, d64⟩

/-- C17. Fixed-point filter coefficient.  Let `t` be filter accumulator 0,
`q` the mixed sample and `p = q - t`.  If none of the three 16-bit stores of
lines 80-82 wraps, the updated accumulator 0 is
`t + floor(p/4) + floor(p/16) + floor(p/64)`; this is at most the rational
`t + (21/64) * p` and less than 3 below it; and the filtered sample is the
16-bit sum of the first-stage term (updated accumulator 0 minus `p`) and the
second-stage term. -/
theorem C17_filter_coefficient (q : Int) (l : line_t)
    (hp : wrap16 (q - l.lpfInBuf0) = q - l.lpfInBuf0)
    (hb : wrap16 (((q - l.lpfInBuf0) >>> 2) + ((q - l.lpfInBuf0) >>> 4) +
        ((q - l.lpfInBuf0) >>> 6) + l.lpfInBuf0) =
      ((q - l.lpfInBuf0) >>> 2) + ((q - l.lpfInBuf0) >>> 4) +
        ((q - l.lpfInBuf0) >>> 6) + l.lpfInBuf0)
    (hs : wrap16 (((q - l.lpfInBuf0) >>> 2) + ((q - l.lpfInBuf0) >>> 4) +
        ((q - l.lpfInBuf0) >>> 6) + l.lpfInBuf0 - (q - l.lpfInBuf0)) =
      ((q - l.lpfInBuf0) >>> 2) + ((q - l.lpfInBuf0) >>> 4) +
        ((q - l.lpfInBuf0) >>> 6) + l.lpfInBuf0 - (q - l.lpfInBuf0)) :
    (lowPass q l).2.lpfInBuf0 =
      l.lpfInBuf0 + ⌊((q - l.lpfInBuf0 : Int) : ℚ) / 4⌋ +
        ⌊((q - l.lpfInBuf0 : Int) : ℚ) / 16⌋ + ⌊((q - l.lpfInBuf0 : Int) : ℚ) / 64⌋ ∧
    (((lowPass q l).2.lpfInBuf0 : Int) : ℚ) ≤
      (l.lpfInBuf0 : ℚ) + 21 / 64 * ((q - l.lpfInBuf0 : Int) : ℚ) ∧
    (l.lpfInBuf0 : ℚ) + 21 / 64 * ((q - l.lpfInBuf0 : Int) : ℚ) - 3 <
      (((lowPass q l).2.lpfInBuf0 : Int) : ℚ) ∧
    (lowPass q l).1 =
      wrap16 (((lowPass q l).2.lpfInBuf0 - (q - l.lpfInBuf0)) +
        ((lowPass q l).2.lpfInBuf1 -
          wrap16 (q - wrap16 ((lowPass q l).2.lpfInBuf2 -
            wrap16 (l.lpfInBuf1 - l.lpfInBuf2))))) := by
  generalize hpdef : q - l.lpfInBuf0 = p at *
  have hb0 : (lowPass q l).2.lpfInBuf0 = (p >>> 2) + (p >>> 4) + (p >>> 6) + l.lpfInBuf0 := by
    simp only [lowPass, hpdef, hp, hb]
  obtain ⟨f4, f16, f64⟩ := shift_floor p
  have hdiv : (p >>> 2) + (p >>> 4) + (p >>> 6) = p / 4 + p / 16 + p / 64 := by
    obtain ⟨d4, d16, d64⟩ := shift_div p
    rw [d4, d16, d64]
  have hle : 64 * (p / 4 + p / 16 + p / 64) ≤ 21 * p := by omega
  have hgt : 21 * p < 64 * (p / 4 + p / 16 + p / 64 + 3) := by omega
  have hleq : (64 : ℚ) * ((p / 4 + p / 16 + p / 64 : Int) : ℚ) ≤ 21 * (p : ℚ) := by
    exact_mod_cast hle
  have hgtq : (21 : ℚ) * (p : ℚ) < 64 * (((p / 4 + p / 16 + p / 64 : Int) : ℚ) + 3) := by
    exact_mod_cast hgt
  refine ⟨?_, ?_, ?_, ?_⟩
  · rw [hb0, f4, f16, f64]; ring
  · rw [hb0, hdiv]; push_cast at hleq ⊢; linarith
  · rw [hb0, hdiv]; push_cast at hgtq ⊢; linarith
  · rw [hb0]
    simp only [lowPass, hpdef, hp, hb, hs]

/-- C17 at a concrete state: accumulator 0 equal to 100, mixed sample 1000
(so `p = 900`). -/
theorem C17_filter_coefficient_witness :
    (lowPass 1000 { line0 with lpfInBuf0 := 100 }).2.lpfInBuf0 =
      ({ line0 with lpfInBuf0 := 100 } : line_t).lpfInBuf0 +
        ⌊((1000 - ({ line0 with lpfInBuf0 := 100 } : line_t).lpfInBuf0 : Int) : ℚ) / 4⌋ +
        ⌊((1000 - ({ line0 with lpfInBuf0 := 100 } : line_t).lpfInBuf0 : Int) : ℚ) / 16⌋ +
        ⌊((1000 - ({ line0 with lpfInBuf0 := 100 } : line_t).lpfInBuf0 : Int) : ℚ) / 64⌋ :=
  (C17_filter_coefficient 1000 { line0 with lpfInBuf0 := 100 }
    (by decide) (by decide) (by decide)).1

/-! ## Tone period -/

theorem runTicks_overflow (pins : List Nat) : ∀ m m' : Machine,
    m.line.phaseOut < 65536 → runTicks m pins = some m' →
    m.line.phaseOut + 4666 * pins.countP (fun p => decide (p % 2 = 1)) +
        4247 * pins.countP (fun p => decide (p % 2 = 0)) =
      m'.line.phaseOut + 65536 * overflowCount m.line.phaseOut pins := by
  induction pins with
  | nil =>
    intro m m' _ hr
    simp only [runTicks, Option.some.injEq] at hr
    subst hr
    simp [overflowCount]
  | cons pin pins ih =>
    intro m m' hp hr
    rw [runTicks_cons] at hr
    have hih := ih _ m' (nextPhase_lt pin m.line.phaseOut) hr
    dsimp only at hih
    rw [overflowCount]
    rcases Nat.mod_two_eq_zero_or_one pin with h | h
    · have hc1 : (pin :: pins).countP (fun p => decide (p % 2 = 1)) =
          pins.countP (fun p => decide (p % 2 = 1)) := by simp [List.countP_cons, h]
      have hc0 : (pin :: pins).countP (fun p => decide (p % 2 = 0)) =
          pins.countP (fun p => decide (p % 2 = 0)) + 1 := by simp [List.countP_cons, h]
      have hcar : (if carries pin m.line.phaseOut = true then 1 else 0) =
          (m.line.phaseOut + 4247) / 65536 := by
        simp only [carries, Nat.and_one_is_mod, h]
        split_ifs <;> simp_all <;> omega
      rw [hc1, hc0, hcar]
      rw [nextPhase_even pin _ h] at hih ⊢
      omega
    · have hc1 : (pin :: pins).countP (fun p => decide (p % 2 = 1)) =
          pins.countP (fun p => decide (p % 2 = 1)) + 1 := by simp [List.countP_cons, h]
      have hc0 : (pin :: pins).countP (fun p => decide (p % 2 = 0)) =
          pins.countP (fun p => decide (p % 2 = 0)) := by simp [List.countP_cons, h]
      have hcar : (if carries pin m.line.phaseOut = true then 1 else 0) =
          (m.line.phaseOut + 4666) / 65536 := by
        simp only [carries, Nat.and_one_is_mod, h]
        split_ifs <;> simp_all <;> omega
      rw [hc1, hc0, hcar]
      rw [nextPhase_odd pin _ h] at hih ⊢
      omega

theorem runTicks_replicate (n b : Nat) (m : Machine) (hp : m.line.phaseOut < 65536) :
    ∃ m', runTicks m (List.replicate n b) = some m' ∧ m'.line.phaseOut < 65536 ∧
      (b % 2 = 1 →
        m.line.phaseOut + 4666 * n =
          m'.line.phaseOut + 65536 * overflowCount m.line.phaseOut (List.replicate n b)) ∧
      (b % 2 = 0 →
        m.line.phaseOut + 4247 * n =
          m'.line.phaseOut + 65536 * overflowCount m.line.phaseOut (List.replicate n b)) := by
  obtain ⟨m', hrun, _⟩ := runTicks_phase (List.replicate n b) m
  have hlt := runTicks_phase_lt _ m m' hp hrun
  have hov := runTicks_overflow _ m m' hp hrun
  refine ⟨m', hrun, hlt, ?_, ?_⟩
  · intro h
    have h0 : ¬ b % 2 = 0 := by omega
    simpa [List.countP_replicate, h, h0] using hov
  · intro h
    have h1 : ¬ b % 2 = 1 := by omega
    simpa [List.countP_replicate, h, h1] using hov

/-- C18. Tone period with a constant bit.  From a 16-bit starting phase and
with the same pin reading `b` on every tick, 65536 consecutive carrier ticks
complete, bring `phaseOut` back to its starting value, and overflow the
accumulator exactly 4666 times when bit 0 of `b` is 1 and exactly 4247 times
when it is 0. -/
theorem C18_tone_period (m : Machine) (b : Nat) (hp : m.line.phaseOut < 65536) :
    ∃ m', runTicks m (List.replicate 65536 b) = some m' ∧
      m'.line.phaseOut = m.line.phaseOut ∧
      (b % 2 = 1 → overflowCount m.line.phaseOut (List.replicate 65536 b) = 4666) ∧
      (b % 2 = 0 → overflowCount m.line.phaseOut (List.replicate 65536 b) = 4247) := by
  obtain ⟨m', hrun, hlt, h1, h0⟩ := runTicks_replicate 65536 b m hp
  refine ⟨m', hrun, ?_, ?_, ?_⟩
  · rcases Nat.mod_two_eq_zero_or_one b with h | h
    · have := h0 h; omega
    · have := h1 h; omega
  · intro h; have := h1 h; omega
  · intro h; have := h0 h; omega

/-- C18 at power-up with the outgoing bit held at 1. -/
theorem C18_tone_period_witness :
    powerUp.line.phaseOut < 65536 ∧
    ∃ m', runTicks powerUp (List.replicate 65536 1) = some m' ∧
      m'.line.phaseOut = powerUp.line.phaseOut ∧
      ((1 : Nat) % 2 = 1 → overflowCount powerUp.line.phaseOut (List.replicate 65536 1) = 4666) ∧
      ((1 : Nat) % 2 = 0 → overflowCount powerUp.line.phaseOut (List.replicate 65536 1) = 4247) :=
  ⟨by decide, C18_tone_period powerUp 1 (by decide)⟩

/-! ## Shape of the sine table -/

set_option maxRecDepth 100000 in
set_option maxHeartbeats 4000000 in
/-- C19. Sine table shape.  `sinTable` has exactly 256 entries, each in
1..255; entries 0 and 128 are 128; entries 0..128 are all at least 128, with
the maximum 255 at index 64; entries 128..255 are all at most 128, with the
minimum 1 at index 192; and the table is mirror-symmetric about the peak and
the trough: `sinTable[i] = sinTable[128 - i]` for `0 <= i <= 128` and
`sinTable[128 + i] = sinTable[256 - i]` for `1 <= i <= 127`. -/
theorem C19_sine_table_shape :
    sinTable.length = 256 ∧
    (∀ v ∈ sinTable, 1 ≤ v ∧ v ≤ 255) ∧
    sinTable[0]? = some 128 ∧ sinTable[128]? = some 128 ∧
    (∀ i, i < 129 → 128 ≤ sinTable.getD i 0) ∧
    sinTable[64]? = some 255 ∧
    (∀ i, i < 256 → 128 ≤ i → sinTable.getD i 0 ≤ 128) ∧
    sinTable[192]? = some 1 ∧
    (∀ i, i < 129 → sinTable[i]? = sinTable[128 - i]?) ∧
    (∀ i, i < 128 → 1 ≤ i → sinTable[128 + i]? = sinTable[256 - i]?) := by
  refine ⟨by decide, by decide, by decide, by decide, by decide, by decide, by decide,
    by decide, by decide, by decide⟩

end Bell103
